import Mathlib

/-!
Verification of the `IdeasTable` component (`src/components/IdeasTable.tsx`):
a searchable, filterable, paginated list of idea records.

The component's pipeline logic is embedded shallowly:
* JS strings are modelled as Lean `String`s; character-level operations
  (`toLowerCase`, `includes`) work on the underlying `List Char`.
* JS array operations (`filter`, `slice`, `flatMap`, `Set` insertion order)
  are modelled as the corresponding `List` operations, with `slice`
  reproducing the ECMAScript index clamping.
* React state is a record (`ViewState`); event handlers are functions from
  state to state, and the `useEffect` that resets `currentPage` on a change
  of `activeCategory`/`searchQuery` is folded into those handlers (its
  settled-state effect).
* The debounced search handler is modelled by an explicit timeline of
  keystroke events with a single cancellable pending timer.
* The fetch effect is modelled by a sum type of fetch outcomes.
-/

namespace IdeasTable

/-- `String.prototype.toLowerCase()`, at the character-list level. -/
def jsToLower (s : String) : List Char := s.data.map Char.toLower

/-- Scan for an occurrence of `needle` in the haystack, as
`String.prototype.includes` does (`true` when `needle` occurs as a
contiguous substring; the empty needle always occurs). -/
def charListIncludes (needle : List Char) : List Char → Bool
  | [] => needle.isEmpty
  | c :: t => needle.isPrefixOf (c :: t) || charListIncludes needle t

/-- `s.includes(pat)` on already-lowercased character lists. -/
def jsIncludes (s pat : List Char) : Bool := charListIncludes pat s

/-- The `Idea` record (`interface Idea`, IdeasTable.tsx lines 18-25). -/
structure Idea where
  id : String
  title : String
  description : String
  category : List String
  prize : ℤ
  difficulty : String
deriving DecidableEq

/-- `const ITEMS_PER_PAGE = 6` (line 27). -/
def ITEMS_PER_PAGE : ℕ := 6

/-- The component's view state: the `useState` hooks of `IdeasPlatform`
(lines 30-37) that feed the filter/paginate pipeline.  `currentPage` is an
integer because the JS value is an unconstrained number. -/
structure ViewState where
  ideas : List Idea
  activeCategory : String
  searchQuery : String
  isSearching : Bool
  currentPage : ℤ
deriving DecidableEq

/-- The filter predicate of `filteredIdeas` (lines 102-106):
`(activeCategory === 'All' || idea.category.includes(activeCategory)) &&
 (idea.title.toLowerCase().includes(searchQuery.toLowerCase()) ||
  idea.description.toLowerCase().includes(searchQuery.toLowerCase()))`. -/
def matchesFilter (activeCategory searchQuery : String) (idea : Idea) : Bool :=
  (activeCategory == "All" || idea.category.contains activeCategory) &&
  (jsIncludes (jsToLower idea.title) (jsToLower searchQuery) ||
   jsIncludes (jsToLower idea.description) (jsToLower searchQuery))

/-- `const filteredIdeas = ideas.filter(...)` (lines 102-106). -/
def filteredIdeas (st : ViewState) : List Idea :=
  st.ideas.filter (matchesFilter st.activeCategory st.searchQuery)

/-- `const totalPages = Math.ceil(filteredIdeas.length / ITEMS_PER_PAGE)`
(line 108).  For a natural `n`, `Math.ceil(n / 6) = (n + 5) / 6` in natural
division. -/
def totalPages (st : ViewState) : ℕ :=
  ((filteredIdeas st).length + (ITEMS_PER_PAGE - 1)) / ITEMS_PER_PAGE

/-- ECMAScript index normalisation for `Array.prototype.slice`:
a negative index counts from the end (clamped at 0), a non-negative index
is clamped at the length. -/
def jsSliceIndex (len : ℕ) (i : ℤ) : ℕ :=
  if i < 0 then ((len : ℤ) + i).toNat else min i.toNat len

/-- `Array.prototype.slice(start, stop)`. -/
def jsSlice {α : Type} (l : List α) (start stop : ℤ) : List α :=
  (l.take (jsSliceIndex l.length stop)).drop (jsSliceIndex l.length start)

/-- `const startIndex = (currentPage - 1) * ITEMS_PER_PAGE` (line 109). -/
def startIndex (st : ViewState) : ℤ := (st.currentPage - 1) * (ITEMS_PER_PAGE : ℤ)

/-- `const endIndex = startIndex + ITEMS_PER_PAGE` (line 110). -/
def endIndex (st : ViewState) : ℤ := startIndex st + (ITEMS_PER_PAGE : ℤ)

/-- `const currentPageIdeas = filteredIdeas.slice(startIndex, endIndex)`
(line 111). -/
def currentPageIdeas (st : ViewState) : List Idea :=
  jsSlice (filteredIdeas st) (startIndex st) (endIndex st)

/-- One entry of the `categories` facet list (lines 68-75). -/
structure CategoryFacet where
  id : String
  name : String
  count : ℕ
deriving DecidableEq

/-- One insertion into a JS `Set` viewed as its insertion-ordered element
list: appends the element unless already present. -/
def jsSetAdd (acc : List String) (c : String) : List String :=
  if c ∈ acc then acc else acc ++ [c]

/-- `Array.from(new Set(l))` (line 66): the distinct elements of `l` in
insertion (= first-seen) order. -/
def jsSetToArray (l : List String) : List String := l.foldl jsSetAdd []

/-- `ideas.filter(idea => idea.category.includes(category)).length`
(line 73). -/
def categoryCount (ideas : List Idea) (c : String) : ℕ :=
  (ideas.filter (fun idea => idea.category.contains c)).length

/-- The `categories` memo (lines 64-76): the `"All"` sentinel facet
followed by one facet per distinct category label. -/
def categories (ideas : List Idea) : List CategoryFacet :=
  ⟨"all", "All", ideas.length⟩ ::
    (jsSetToArray (ideas.flatMap Idea.category)).map
      (fun c => ⟨c, c, categoryCount ideas c⟩)

/-- Reference implementation of first-seen deduplication: keep each
element's first occurrence, removing the later ones. -/
def firstSeenDedup : List String → List String
  | [] => []
  | c :: cs => c :: firstSeenDedup (cs.filter (fun x => x != c))
termination_by l => l.length
decreasing_by
  simp only [List.length_cons]
  exact Nat.lt_succ_of_le (List.length_filter_le _ _)

/-- Index of the first occurrence of `a` (the list's length when absent). -/
def firstIdx (a : String) : List String → ℕ
  | [] => 0
  | b :: l => if a = b then 0 else firstIdx a l + 1

/-! ### State-transition model of the event handlers

React's `setState` calls together with the `useEffect` on
`[activeCategory, searchQuery]` (lines 113-115) give, per settled render,
the following transitions.  The effect re-runs (and resets the page) only
when the watched value actually changed. -/

/-- Clicking a category button: `setActiveCategory(category.name)`
(line 200) plus the page-reset effect (lines 113-115). -/
def setActiveCategoryOp (name : String) (st : ViewState) : ViewState :=
  { st with activeCategory := name,
            currentPage := if name == st.activeCategory then st.currentPage else 1 }

/-- A keystroke in the search box, `onSearchInputChange` (lines 95-100):
`setSearchQuery(query)` runs immediately (line 97), `setIsSearching(true)`
(line 98); the page-reset effect fires because `searchQuery` changed. -/
def searchInputChange (q : String) (st : ViewState) : ViewState :=
  { st with searchQuery := q, isSearching := true,
            currentPage := if q == st.searchQuery then st.currentPage else 1 }

/-- The debounced commit firing (lines 88-91): `setSearchQuery(query)`,
`setIsSearching(false)`, plus the page-reset effect on a changed value. -/
def commitSearch (q : String) (st : ViewState) : ViewState :=
  { st with searchQuery := q, isSearching := false,
            currentPage := if q == st.searchQuery then st.currentPage else 1 }

/-- `setCurrentPage(n)`: the raw `useState` setter — plain assignment,
no clamping. -/
def setCurrentPage (n : ℤ) (st : ViewState) : ViewState :=
  { st with currentPage := n }

/-- `PaginationPrevious` click: `setCurrentPage(Math.max(1, currentPage - 1))`
(lines 289, 361). -/
def clickPrev (st : ViewState) : ViewState :=
  setCurrentPage (max 1 (st.currentPage - 1)) st

/-- `PaginationNext` click: `setCurrentPage(Math.min(totalPages, currentPage + 1))`
(lines 302, 370). -/
def clickNext (st : ViewState) : ViewState :=
  setCurrentPage (min (totalPages st : ℤ) (st.currentPage + 1)) st

/-- The page indices of the links produced by `generatePaginationItems`
(lines 117-138): `i = 1, ..., totalPages`. -/
def paginationItems (st : ViewState) : List ℕ := List.range' 1 (totalPages st)

/-- One user interaction step.  Pagination controls are rendered only when
`totalPages > 1` (lines 281, 355), and a page link exists only for an index
produced by `generatePaginationItems`; clicking link `i` runs
`setCurrentPage(i)` (line 124). -/
inductive Step : ViewState → ViewState → Prop
  | category (st : ViewState) (name : String) : Step st (setActiveCategoryOp name st)
  | input (st : ViewState) (q : String) : Step st (searchInputChange q st)
  | commit (st : ViewState) (q : String) : Step st (commitSearch q st)
  | prev (st : ViewState) (h : 1 < totalPages st) : Step st (clickPrev st)
  | next (st : ViewState) (h : 1 < totalPages st) : Step st (clickNext st)
  | link (st : ViewState) (i : ℕ) (h : 1 < totalPages st)
      (hi : i ∈ paginationItems st) : Step st (setCurrentPage (i : ℤ) st)

/-- The state right after a (possibly empty) load: default hook values
(lines 30-37) with the loaded collection in place. -/
def initState (ideas : List Idea) : ViewState :=
  { ideas := ideas, activeCategory := "All", searchQuery := "",
    isSearching := false, currentPage := 1 }

/-- States reachable by user interaction from the post-load state. -/
def Reachable (ideas : List Idea) (st : ViewState) : Prop :=
  Relation.ReflTransGen Step (initState ideas) st

/-! ### Debounce model (lines 79-100)

`debounce` keeps a single `timeoutId`; every call clears it and schedules
`func` `delay` ms later.  A timeline is a list of keystrokes
`(time, value)` in strictly increasing time order; a pending timer that
would fire no later than the next keystroke fires first, otherwise the
keystroke cancels it. -/

/-- Process the keystroke timeline carrying the pending `(fireTime, value)`
timer; emit the commits that actually fire. -/
def debounceRun : Option (ℕ × String) → List (ℕ × String) → List (ℕ × String)
  | none, [] => []
  | some p, [] => [p]
  | none, (t, q) :: rest => debounceRun (some (t + 500, q)) rest
  | some p, (t, q) :: rest =>
    if p.1 ≤ t then p :: debounceRun (some (t + 500, q)) rest
    else debounceRun (some (t + 500, q)) rest

/-- The committed `searchQuery` updates produced by a keystroke timeline
(500 ms trailing-edge debounce, lines 87-93). -/
def debounceCommits (ks : List (ℕ × String)) : List (ℕ × String) :=
  debounceRun none ks

/-- The timeline is strictly increasing with every gap below 500 ms
("N calls within a window smaller than 500 ms"). -/
def rapidFire (ks : List (ℕ × String)) : Prop :=
  List.Chain' (fun a b => a.1 < b.1 ∧ b.1 < a.1 + 500) ks

/-- The search-box portion of the state, as touched by one keystroke. -/
structure SearchState where
  searchQuery : String
  isSearching : Bool
  pendingCommit : Option (ℕ × String)
deriving DecidableEq

/-- `onSearchInputChange` at time `t` (lines 95-100): sets `searchQuery`
immediately (line 97), marks searching (line 98), and replaces the pending
debounced commit with one at `t + 500` (lines 82-83, 91). -/
def onSearchInputChange (t : ℕ) (q : String) (_st : SearchState) : SearchState :=
  { searchQuery := q, isSearching := true, pendingCommit := some (t + 500, q) }

/-! ### Fetch model (lines 39-62) -/

/-- A parsed JSON response body: either a list of idea records or some
other JSON value, of which only the `details`/`error` fields matter
(`none` = field absent/undefined). -/
inductive Payload
  | list (l : List Idea)
  | other (details : Option String) (error : Option String)
deriving DecidableEq

/-- `data.details`: `undefined` on an array payload. -/
def Payload.detailsField : Payload → Option String
  | .list _ => none
  | .other d _ => d

/-- `data.error`: `undefined` on an array payload. -/
def Payload.errorField : Payload → Option String
  | .list _ => none
  | .other _ e => e

/-- Whether the payload is a well-formed idea list. -/
def Payload.isList : Payload → Bool
  | .list _ => true
  | .other _ _ => false

/-- What the `fetch`/`response.json()` pair produced: a rejection (network
error or unparseable body, with the thrown error's message) or a parsed
response with its `ok` flag. -/
inductive FetchOutcome
  | networkError (msg : String)
  | response (ok : Bool) (body : Payload)
deriving DecidableEq

/-- Result of the load: generalized from `setIdeas(data)` vs
`setError(err.message)`. -/
inductive LoadResult
  | ready (data : Payload)
  | failed (msg : String)
deriving DecidableEq

/-- JS `a || b` for an optional string `a`: `undefined` and `""` are falsy. -/
def jsOrString (v : Option String) (fallback : String) : String :=
  match v with
  | some s => if s = "" then fallback else s
  | none => fallback

/-- `data.details || data.error || 'Failed to fetch ideas'` (line 47). -/
def fetchErrorMessage (body : Payload) : String :=
  jsOrString body.detailsField (jsOrString body.errorField "Failed to fetch ideas")

/-- `fetchIdeas` (lines 41-59): parse failure or network error rejects with
the thrown message; a non-`ok` response throws the structured message; an
`ok` response stores the payload unvalidated. -/
def fetchIdeas : FetchOutcome → LoadResult
  | .networkError msg => .failed msg
  | .response ok body =>
    if ok then .ready body else .failed (fetchErrorMessage body)

/-- The component's load-related state after the fetch effect settles:
`ideas` (initially `[]`), `error` (initially `null`), `loading`. -/
structure LoadedState where
  ideas : Payload
  error : Option String
  loading : Bool
deriving DecidableEq

/-- State after the fetch effect: success stores the payload (line 50);
failure stores the message (line 54) and never touches `ideas`, which
keeps its initial `[]` (line 30). -/
def applyFetch (out : FetchOutcome) : LoadedState :=
  match fetchIdeas out with
  | .ready p => { ideas := p, error := none, loading := false }
  | .failed m => { ideas := .list [], error := some m, loading := false }

/-! ### Concrete sample states used as witnesses and counterexamples -/

/-- One idea tagged `"AI"`. -/
def sampleIdea : Idea :=
  { id := "i1", title := "Idea", description := "Desc", category := ["AI"],
    prize := 0, difficulty := "easy" }

/-- Seven loaded ideas (the collection size of the spec's Scenario A). -/
def sevenIdeas : List Idea := List.replicate 7 sampleIdea

/-- Post-load state over `sevenIdeas` with the default filters: every idea
matches, so `totalPages = ceil(7/6) = 2`. -/
def pagingState : ViewState := initState sevenIdeas

/-- One loaded idea with the committed query `"robot"` matching nothing. -/
def noMatchState : ViewState :=
  { ideas := [sampleIdea], activeCategory := "All", searchQuery := "robot",
    isSearching := false, currentPage := 1 }

/-- The search-box state before any keystroke. -/
def searchState0 : SearchState :=
  { searchQuery := "", isSearching := false, pendingCommit := none }

/-!
## Helper lemmas about the embedded JS primitives
-/

/-- The scanning `includes` finds exactly the contiguous-substring
occurrences. -/
theorem charListIncludes_iff (needle hay : List Char) :
    charListIncludes needle hay = true ↔ needle <:+: hay := by
  induction hay with
  | nil =>
    simp only [charListIncludes, List.isEmpty_iff, List.infix_nil]
  | cons c t ih =>
    simp only [charListIncludes, Bool.or_eq_true, ih,
      List.isPrefixOf_iff_prefix, List.infix_cons_iff]

theorem take_min_length {α : Type} (l : List α) (n : ℕ) :
    l.take (min n l.length) = l.take n := by
  rcases Nat.le_total n l.length with h | h
  · rw [min_eq_left h]
  · rw [min_eq_right h, List.take_length, List.take_of_length_le h]

theorem drop_min_length {α : Type} (l : List α) (n : ℕ) :
    l.drop (min n l.length) = l.drop n := by
  rcases Nat.le_total n l.length with h | h
  · rw [min_eq_left h]
  · rw [min_eq_right h, List.drop_length, List.drop_eq_nil_of_le h]

/-- For a non-negative start, `slice(s, s + k)` is drop-then-take. -/
theorem jsSlice_nonneg {α : Type} (l : List α) (s : ℤ) (k : ℕ) (hs : 0 ≤ s) :
    jsSlice l s (s + (k : ℤ)) = (l.drop s.toNat).take k := by
  have h1 : jsSliceIndex l.length (s + (k : ℤ)) = min (s.toNat + k) l.length := by
    rw [jsSliceIndex, if_neg (by omega)]
    congr 1
    omega
  have h2 : jsSliceIndex l.length s = min s.toNat l.length := by
    rw [jsSliceIndex, if_neg (by omega)]
  rw [jsSlice, h1, h2, take_min_length, List.drop_take, drop_min_length]
  rcases Nat.le_total s.toNat l.length with h | h
  · congr 1
    omega
  · simp [List.drop_eq_nil_of_le h]

theorem firstSeenDedup_cons (c : String) (cs : List String) :
    firstSeenDedup (c :: cs) = c :: firstSeenDedup (cs.filter (fun x => x != c)) := by
  rw [firstSeenDedup]

theorem mem_firstSeenDedup (a : String) (l : List String) :
    a ∈ firstSeenDedup l ↔ a ∈ l := by
  induction l using firstSeenDedup.induct with
  | case1 => simp [firstSeenDedup]
  | case2 c cs ih =>
    rw [firstSeenDedup_cons]
    simp only [List.mem_cons, ih, List.mem_filter, bne_iff_ne, ne_eq]
    constructor
    · rintro (rfl | ⟨h, _⟩)
      · exact .inl rfl
      · exact .inr h
    · rintro (rfl | h)
      · exact .inl rfl
      · by_cases hac : a = c
        · exact .inl hac
        · exact .inr ⟨h, hac⟩

theorem nodup_firstSeenDedup (l : List String) : (firstSeenDedup l).Nodup := by
  induction l using firstSeenDedup.induct with
  | case1 => simp [firstSeenDedup]
  | case2 c cs ih =>
    rw [firstSeenDedup_cons]
    refine List.nodup_cons.mpr ⟨?_, ih⟩
    intro hmem
    rw [mem_firstSeenDedup, List.mem_filter] at hmem
    simp at hmem

theorem firstSeenDedup_sublist (l : List String) : (firstSeenDedup l).Sublist l := by
  induction l using firstSeenDedup.induct with
  | case1 => simp [firstSeenDedup]
  | case2 c cs ih =>
    rw [firstSeenDedup_cons]
    exact List.cons_sublist_cons.mpr (ih.trans (List.filter_sublist _))

/-- A JS `Set` built by left-to-right insertion holds exactly the first
occurrences, in order. -/
theorem foldl_jsSetAdd (l : List String) : ∀ acc : List String,
    l.foldl jsSetAdd acc =
      acc ++ firstSeenDedup (l.filter (fun x => !(acc.contains x))) := by
  induction l with
  | nil =>
    intro acc
    simp [firstSeenDedup]
  | cons c cs ih =>
    intro acc
    rw [List.foldl_cons]
    by_cases hc : c ∈ acc
    · rw [jsSetAdd, if_pos hc, ih acc, List.filter_cons, if_neg (by simp [List.contains, List.elem_eq_mem, hc])]
    · rw [jsSetAdd, if_neg hc, ih (acc ++ [c]), List.filter_cons,
        if_pos (by simp [List.contains, List.elem_eq_mem, hc]), firstSeenDedup_cons]
      have hfil : cs.filter (fun x => !((acc ++ [c]).contains x)) =
          (cs.filter (fun x => !(acc.contains x))).filter (fun x => x != c) := by
        rw [List.filter_filter]
        apply List.filter_congr
        intro x _
        by_cases hxc : x = c
        · simp [List.contains, List.elem_eq_mem, hxc]
        · by_cases hxa : x ∈ acc <;>
            simp [List.contains, List.elem_eq_mem, List.mem_append, hxc, hxa]
      rw [hfil, List.append_assoc, List.singleton_append]

theorem jsSetToArray_eq (l : List String) : jsSetToArray l = firstSeenDedup l := by
  rw [jsSetToArray, foldl_jsSetAdd]
  simp [List.contains]

/-- Relative order of first occurrences is preserved by `filter`, for two
elements the filter keeps. -/
theorem firstIdx_filter (p : String → Bool) (a b : String)
    (hpa : p a = true) (hpb : p b = true) :
    ∀ l : List String, a ∈ l → b ∈ l →
      (firstIdx a (l.filter p) < firstIdx b (l.filter p) ↔
        firstIdx a l < firstIdx b l) := by
  intro l
  induction l with
  | nil => intro h; cases h
  | cons x t ih =>
    intro hal hbl
    by_cases hpx : p x = true
    · rw [List.filter_cons, if_pos hpx]
      by_cases hax : a = x
      · by_cases hbx : b = x
        · subst hax; subst hbx
          simp [firstIdx]
        · subst hax
          simp [firstIdx, hbx]
      · by_cases hbx : b = x
        · subst hbx
          simp [firstIdx, hax]
        · have hat : a ∈ t := by
            cases hal with
            | head => exact absurd rfl hax
            | tail _ h => exact h
          have hbt : b ∈ t := by
            cases hbl with
            | head => exact absurd rfl hbx
            | tail _ h => exact h
          simp only [firstIdx, if_neg hax, if_neg hbx, Nat.add_lt_add_iff_right]
          exact ih hat hbt
    · have hax : a ≠ x := fun h => hpx (h ▸ hpa)
      have hbx : b ≠ x := fun h => hpx (h ▸ hpb)
      have hat : a ∈ t := by
        cases hal with
        | head => exact absurd rfl hax
        | tail _ h => exact h
      have hbt : b ∈ t := by
        cases hbl with
        | head => exact absurd rfl hbx
        | tail _ h => exact h
      rw [List.filter_cons, if_neg hpx]
      simp only [firstIdx, if_neg hax, if_neg hbx, Nat.add_lt_add_iff_right]
      exact ih hat hbt

/-- First-seen deduplication preserves the relative order of the first
occurrences of any two elements. -/
theorem firstSeenDedup_order (a b : String) :
    ∀ l : List String, a ∈ l → b ∈ l →
      (firstIdx a (firstSeenDedup l) < firstIdx b (firstSeenDedup l) ↔
        firstIdx a l < firstIdx b l) := by
  intro l
  induction l using firstSeenDedup.induct with
  | case1 => intro h; cases h
  | case2 c cs ih =>
    intro hal hbl
    rw [firstSeenDedup_cons]
    by_cases hac : a = c
    · by_cases hbc : b = c
      · subst hac; subst hbc
        simp [firstIdx]
      · subst hac
        simp [firstIdx, hbc]
    · by_cases hbc : b = c
      · subst hbc
        simp [firstIdx, hac]
      · have hat : a ∈ cs := by
          cases hal with
          | head => exact absurd rfl hac
          | tail _ h => exact h
        have hbt : b ∈ cs := by
          cases hbl with
          | head => exact absurd rfl hbc
          | tail _ h => exact h
        have haf : a ∈ cs.filter (fun x => x != c) := by
          rw [List.mem_filter]
          exact ⟨hat, by simp [hac]⟩
        have hbf : b ∈ cs.filter (fun x => x != c) := by
          rw [List.mem_filter]
          exact ⟨hbt, by simp [hbc]⟩
        simp only [firstIdx, if_neg hac, if_neg hbc, Nat.add_lt_add_iff_right]
        rw [ih haf hbf]
        exact firstIdx_filter _ a b (by simp [hac]) (by simp [hbc]) cs hat hbt

/-!
## Spec-side predicates

These two definitions follow the spec's wording of §4.1 step (a), to be
compared with the source-derived `filteredIdeas`. -/

/-- Spec wording: "title contains searchQuery, case-insensitive OR
description contains searchQuery, case-insensitive". -/
def specTextMatches (q : String) (idea : Idea) : Prop :=
  jsToLower q <:+: jsToLower idea.title ∨ jsToLower q <:+: jsToLower idea.description

/-- Spec wording: "(activeCategory == All OR category contains
activeCategory) AND (text condition)". -/
def specMatches (cat q : String) (idea : Idea) : Prop :=
  (cat = "All" ∨ cat ∈ idea.category) ∧ specTextMatches q idea

/-!
## Claim theorems
-/

/-- C1 counterexample: `onSearchInputChange` writes the raw input to
`searchQuery` immediately (line 97).  With keystrokes `"a"` at t=0 and
`"ab"` at t=100 (a window far below 500 ms), the intermediate value `"a"`
is already committed to `searchQuery` after the first call — the call does
not merely record a pending query, so more than one `searchQuery` update
occurs inside the window. -/
theorem searchQuery_immediate_cex :
    (onSearchInputChange 0 "a" searchState0).searchQuery = "a" ∧
    (onSearchInputChange 100 "ab"
      (onSearchInputChange 0 "a" searchState0)).searchQuery = "ab" ∧
    ("a" : String) ≠ "" ∧ (100 : ℕ) < 0 + 500 := by decide

/-- C2 counterexample: with one loaded idea and the committed query
`"robot"` matching nothing, the code's `totalPages` (line 108) is `0`,
while the claimed formula `max(1, ceil(len/6))` demands `1`. -/
theorem totalPages_zero_cex :
    totalPages noMatchState = 0 ∧
    max 1 (((filteredIdeas noMatchState).length + 5) / 6) = 1 := by decide

/-- C2 amended: `totalPages` is `ceil(len(filtered)/6)` with no lower
bound: it is the least `k` with `len ≤ 6k`, it is `0` (not `1`) when the
filter matches nothing (the visible slice still being empty), and it
agrees with the claimed `max(1, ceil(len/6))` whenever at least one idea
matches. -/
theorem totalPages_ceil (st : ViewState) :
    ((filteredIdeas st).length ≤ ITEMS_PER_PAGE * totalPages st ∧
      ITEMS_PER_PAGE * totalPages st < (filteredIdeas st).length + ITEMS_PER_PAGE) ∧
    ((filteredIdeas st).length = 0 → totalPages st = 0 ∧ currentPageIdeas st = []) ∧
    (0 < (filteredIdeas st).length →
      totalPages st = max 1 (((filteredIdeas st).length + 5) / 6)) := by
  refine ⟨?_, ?_, ?_⟩
  · simp only [totalPages, ITEMS_PER_PAGE]
    omega
  · intro h0
    have hnil : filteredIdeas st = [] := List.length_eq_zero.mp h0
    refine ⟨?_, ?_⟩
    · simp only [totalPages, ITEMS_PER_PAGE, h0]
    · simp only [currentPageIdeas, hnil, jsSlice, List.take_nil, List.drop_nil]
  · intro hpos
    simp only [totalPages, ITEMS_PER_PAGE]
    omega

/-- C2 witness: on the seven-idea state the filter matches 7 ideas, and
`totalPages` agrees with the claimed formula (both are 2). -/
theorem totalPages_ceil_w :
    totalPages pagingState = max 1 (((filteredIdeas pagingState).length + 5) / 6) :=
  (totalPages_ceil pagingState).2.2 (by decide)

/-- C3 counterexample: the page setter used by the pagination links is the
raw `setCurrentPage` (line 124), which performs no clamping: on the
seven-idea state (`totalPages = 2`), setting page 9999 yields 9999, not
`clamp(9999, 1, 2) = 2`. -/
theorem setPage_unclamped_cex :
    (setCurrentPage 9999 pagingState).currentPage = 9999 ∧
    totalPages pagingState = 2 ∧
    max 1 (min 9999 (totalPages pagingState : ℤ)) = 2 ∧
    (9999 : ℤ) ≠ 2 := by decide

/-- C3 amended: there is no general clamping `setPage`; the only page
mutations are the Previous control (`max(1, currentPage - 1)`, line 289),
the Next control (`min(totalPages, currentPage + 1)`, line 302), the page
links (raw `setCurrentPage(i)` for the rendered indices
`i = 1, ..., totalPages`, lines 119-124), and each control clamps only its
own side; when `1 ≤ currentPage ≤ totalPages` the Previous/Next results do
coincide with `clamp(currentPage ∓ 1, 1, totalPages)`. -/
theorem page_controls_clamping (st : ViewState) :
    (clickPrev st).currentPage = max 1 (st.currentPage - 1) ∧
    (clickNext st).currentPage = min (totalPages st : ℤ) (st.currentPage + 1) ∧
    (∀ i, i ∈ paginationItems st → 1 ≤ i ∧ i ≤ totalPages st) ∧
    (∀ n, (setCurrentPage n st).currentPage = n) ∧
    (1 ≤ st.currentPage → st.currentPage ≤ (totalPages st : ℤ) →
      (clickPrev st).currentPage =
        max 1 (min (st.currentPage - 1) (totalPages st : ℤ)) ∧
      (clickNext st).currentPage =
        max 1 (min (st.currentPage + 1) (totalPages st : ℤ))) := by
  refine ⟨rfl, rfl, ?_, fun _ => rfl, ?_⟩
  · intro i hi
    rw [paginationItems, List.mem_range'_1] at hi
    omega
  · intro h1 h2
    refine ⟨?_, ?_⟩
    · show max 1 (st.currentPage - 1) = _
      omega
    · show min (totalPages st : ℤ) (st.currentPage + 1) = _
      omega

/-- C3 witness: on the seven-idea state, page link 1 is rendered and lies
in `[1, totalPages]`, and the Previous control from page 1 yields
`clamp(0, 1, 2) = 1`. -/
theorem page_controls_clamping_w :
    (1 ≤ 1 ∧ 1 ≤ totalPages pagingState) ∧
    (clickPrev pagingState).currentPage =
      max 1 (min (pagingState.currentPage - 1) (totalPages pagingState : ℤ)) :=
  ⟨(page_controls_clamping pagingState).2.2.1 1 (by decide),
   ((page_controls_clamping pagingState).2.2.2.2 (by decide) (by decide)).1⟩

/-- Any single interaction step keeps `currentPage` within
`[1, max 1 totalPages]`. -/
theorem step_preserves_page_bounds {st st' : ViewState} (h : Step st st')
    (inv : 1 ≤ st.currentPage ∧ st.currentPage ≤ max 1 (totalPages st : ℤ)) :
    1 ≤ st'.currentPage ∧ st'.currentPage ≤ max 1 (totalPages st' : ℤ) := by
  cases h with
  | category name =>
    by_cases hn : (name == st.activeCategory) = true
    · have hn' : name = st.activeCategory := by simpa using hn
      subst hn'
      simpa [setActiveCategoryOp] using inv
    · have h1 : (setActiveCategoryOp name st).currentPage = 1 := by
        simp [setActiveCategoryOp, hn]
      rw [h1]
      exact ⟨le_refl 1, le_max_left 1 _⟩
  | input q =>
    by_cases hq : (q == st.searchQuery) = true
    · have hq' : q = st.searchQuery := by simpa using hq
      subst hq'
      simpa [searchInputChange, totalPages, filteredIdeas] using inv
    · have h1 : (searchInputChange q st).currentPage = 1 := by
        simp [searchInputChange, hq]
      rw [h1]
      exact ⟨le_refl 1, le_max_left 1 _⟩
  | commit q =>
    by_cases hq : (q == st.searchQuery) = true
    · have hq' : q = st.searchQuery := by simpa using hq
      subst hq'
      simpa [commitSearch, totalPages, filteredIdeas] using inv
    · have h1 : (commitSearch q st).currentPage = 1 := by
        simp [commitSearch, hq]
      rw [h1]
      exact ⟨le_refl 1, le_max_left 1 _⟩
  | prev h =>
    obtain ⟨i1, i2⟩ := inv
    have e : totalPages (clickPrev st) = totalPages st := rfl
    have e2 : (clickPrev st).currentPage = max 1 (st.currentPage - 1) := rfl
    rw [e, e2]
    omega
  | next h =>
    obtain ⟨i1, i2⟩ := inv
    have e : totalPages (clickNext st) = totalPages st := rfl
    have e2 : (clickNext st).currentPage =
      min (totalPages st : ℤ) (st.currentPage + 1) := rfl
    rw [e, e2]
    omega
  | link i h hi =>
    simp only [paginationItems, List.mem_range'_1] at hi
    have e : totalPages (setCurrentPage (i : ℤ) st) = totalPages st := rfl
    have e2 : (setCurrentPage (i : ℤ) st).currentPage = (i : ℤ) := rfl
    rw [e, e2]
    omega

/-- C7: a change of `activeCategory` and a committed change of
`searchQuery` both reset `currentPage` to 1, and in every state reachable
by user interaction from a post-load state, `currentPage` lies in
`[1, max 1 totalPages]`. -/
theorem page_reset_and_bounds :
    (∀ st name, name ≠ st.activeCategory →
      (setActiveCategoryOp name st).currentPage = 1) ∧
    (∀ st q, q ≠ st.searchQuery → (commitSearch q st).currentPage = 1) ∧
    (∀ ideas st, Reachable ideas st →
      1 ≤ st.currentPage ∧ st.currentPage ≤ max 1 (totalPages st : ℤ)) := by
  refine ⟨?_, ?_, ?_⟩
  · intro st name hne
    simp [setActiveCategoryOp, hne]
  · intro st q hne
    simp [commitSearch, hne]
  · intro ideas st h
    induction h with
    | refl => exact ⟨le_refl 1, le_max_left 1 _⟩
    | tail hsteps hstep ih => exact step_preserves_page_bounds hstep ih

/-- C7 witness: selecting the category `"AI"` from the initial state
resets the page to 1, and the initial state itself satisfies the page
bounds. -/
theorem page_reset_and_bounds_w :
    (setActiveCategoryOp "AI" (initState [])).currentPage = 1 ∧
    1 ≤ (initState ([] : List Idea)).currentPage :=
  ⟨page_reset_and_bounds.1 (initState []) "AI" (by decide),
   (page_reset_and_bounds.2.2 [] (initState []) Relation.ReflTransGen.refl).1⟩

/-- A pending commit that fires strictly after the first remaining
keystroke is cancelled; under rapid fire only the last keystroke's commit
survives. -/
theorem debounceRun_pending (l : ℕ × String) :
    ∀ (ks : List (ℕ × String)) (p : ℕ × String),
      ks.getLast? = some l → rapidFire ks →
      (∀ e : ℕ × String, ks.head? = some e → e.1 < p.1) →
      debounceRun (some p) ks = [(l.1 + 500, l.2)] := by
  intro ks
  induction ks with
  | nil =>
    intro p hlast
    cases hlast
  | cons e rest ih =>
    intro p hlast hrapid hhead
    obtain ⟨t, q⟩ := e
    have hlt : t < p.1 := hhead (t, q) rfl
    show (if p.1 ≤ t then p :: debounceRun (some (t + 500, q)) rest
      else debounceRun (some (t + 500, q)) rest) = [(l.1 + 500, l.2)]
    rw [if_neg (by omega)]
    cases rest with
    | nil =>
      have hl : (t, q) = l := by simpa using hlast
      subst hl
      rfl
    | cons e2 rest2 =>
      refine ih (t + 500, q) ?_ (List.chain'_cons.mp hrapid).2 ?_
      · rw [← List.getLast?_cons_cons]
        exact hlast
      · intro e' he'
        have : e' = e2 := by simpa using he'.symm
        subst this
        exact ((List.chain'_cons.mp hrapid).1).2

/-- The last keystroke's value is the one left in `searchQuery`. -/
theorem foldl_searchInput_last (l : ℕ × String) :
    ∀ ks : List (ℕ × String), ks.getLast? = some l →
      ∀ st0 : SearchState,
        (ks.foldl (fun st e => onSearchInputChange e.1 e.2 st) st0).searchQuery = l.2 := by
  intro ks
  induction ks with
  | nil =>
    intro h
    cases h
  | cons e rest ih =>
    intro hlast st0
    rw [List.foldl_cons]
    cases rest with
    | nil =>
      have hl : e = l := by simpa using hlast
      subst hl
      rfl
    | cons e2 r2 =>
      refine ih ?_ _
      rw [← List.getLast?_cons_cons]
      exact hlast

/-- C1 amended: for a nonempty keystroke timeline whose consecutive gaps
are all below 500 ms, exactly one debounced commit fires, 500 ms after the
last keystroke and carrying its value; the immediate effect of every
keystroke is to write the raw value to `searchQuery` at once, mark
searching, and replace the pending commit. -/
theorem debounce_commits_once (ks : List (ℕ × String)) (l : ℕ × String)
    (hlast : ks.getLast? = some l) (hrapid : rapidFire ks) :
    debounceCommits ks = [(l.1 + 500, l.2)] ∧
    (∀ st0 : SearchState,
      (ks.foldl (fun st e => onSearchInputChange e.1 e.2 st) st0).searchQuery = l.2) ∧
    (∀ (t : ℕ) (q : String) (st : SearchState),
      (onSearchInputChange t q st).searchQuery = q ∧
      (onSearchInputChange t q st).isSearching = true ∧
      (onSearchInputChange t q st).pendingCommit = some (t + 500, q)) := by
  refine ⟨?_, foldl_searchInput_last l ks hlast, fun t q st => ⟨rfl, rfl, rfl⟩⟩
  cases ks with
  | nil => cases hlast
  | cons e rest =>
    obtain ⟨t, q⟩ := e
    show debounceRun (some (t + 500, q)) rest = [(l.1 + 500, l.2)]
    cases rest with
    | nil =>
      have hl : (t, q) = l := by simpa using hlast
      subst hl
      rfl
    | cons e2 rest2 =>
      refine debounceRun_pending l _ (t + 500, q) ?_ (List.chain'_cons.mp hrapid).2 ?_
      · rw [← List.getLast?_cons_cons]
        exact hlast
      · intro e' he'
        have : e' = e2 := by simpa using he'.symm
        subst this
        exact ((List.chain'_cons.mp hrapid).1).2

/-- C1 witness: keystrokes `"a"` at t=0 and `"ab"` at t=100 — a window of
100 ms — produce exactly one debounced commit, at t=600 with the last
value `"ab"`. -/
theorem debounce_commits_once_w :
    debounceCommits [((0:ℕ), "a"), (100, "ab")] = [(600, "ab")] :=
  (debounce_commits_once [(0, "a"), (100, "ab")] (100, "ab")
    (by decide)
    (by
      unfold rapidFire
      exact List.chain'_cons.mpr ⟨⟨by decide, by decide⟩, List.chain'_singleton _⟩)).1

/-- C8: a non-success response yields `Failed(message)` where the message
is the `details` field if present and non-empty, else the `error` field if
present and non-empty, else the generic `"Failed to fetch ideas"`
(line 47); in particular a body `{ "error": "rate limited" }` yields
`Failed("rate limited")`. -/
theorem nonOk_response_message :
    (∀ d e, d ≠ "" →
      fetchIdeas (.response false (.other (some d) e)) = .failed d) ∧
    (∀ e, e ≠ "" →
      fetchIdeas (.response false (.other none (some e))) = .failed e) ∧
    (∀ l, fetchIdeas (.response false (.list l)) =
      .failed "Failed to fetch ideas") ∧
    fetchIdeas (.response false (.other none none)) =
      .failed "Failed to fetch ideas" ∧
    fetchIdeas (.response false (.other none (some "rate limited"))) =
      .failed "rate limited" := by
  refine ⟨?_, ?_, fun l => rfl, rfl, by decide⟩
  · intro d e hd
    simp only [fetchIdeas, fetchErrorMessage, Payload.detailsField, jsOrString,
      if_neg hd, Bool.false_eq_true, if_false]
  · intro e he
    simp only [fetchIdeas, fetchErrorMessage, Payload.detailsField,
      Payload.errorField, jsOrString, if_neg he, Bool.false_eq_true, if_false]

/-- C8 witness: a non-success response whose body carries
`details = "boom"` fails with exactly that message. -/
theorem nonOk_response_message_w :
    fetchIdeas (.response false (.other (some "boom") none)) = .failed "boom" :=
  nonOk_response_message.1 "boom" none (by decide)

/-- C9 counterexample: a success-status response is stored without
validation (line 50), so a parseable but malformed (non-list) payload ends
up as the loaded collection with no error and loading finished — a state
the claim says cannot exist. -/
theorem malformed_payload_stored_cex :
    applyFetch (.response true (.other none (some "oops"))) =
      { ideas := .other none (some "oops"), error := none, loading := false } ∧
    Payload.isList (.other none (some "oops")) = false :=
  ⟨rfl, rfl⟩

/-- C9 amended: every load that fails — network error, unparseable body,
or non-success response — leaves the state `Failed(msg)` with the idea
collection still the initial `[]` (all-or-nothing, no partial data); but a
success-status response is stored unvalidated, so a malformed payload can
be stored as a ready collection. -/
theorem load_failure_all_or_nothing (out : FetchOutcome) (msg : String)
    (h : fetchIdeas out = .failed msg) :
    applyFetch out = { ideas := .list [], error := some msg, loading := false } := by
  unfold applyFetch
  rw [h]

/-- C9 witness: a network error leaves the failure message and the empty
collection. -/
theorem load_failure_all_or_nothing_w :
    applyFetch (.networkError "connection reset") =
      { ideas := .list [], error := some "connection reset", loading := false } :=
  load_failure_all_or_nothing (.networkError "connection reset") "connection reset" rfl

/-- C4: membership in the filtered list is exactly the spec's predicate —
the idea is in the loaded collection, its category matches (`"All"` or
containment), and its title or description contains the query
case-insensitively; the empty query satisfies the text condition for every
idea. -/
theorem filtered_membership :
    (∀ st idea, idea ∈ filteredIdeas st ↔
      idea ∈ st.ideas ∧ specMatches st.activeCategory st.searchQuery idea) ∧
    (∀ idea, specTextMatches "" idea) := by
  constructor
  · intro st idea
    rw [filteredIdeas, List.mem_filter]
    refine and_congr_right fun _ => ?_
    simp only [matchesFilter, Bool.and_eq_true, Bool.or_eq_true, beq_iff_eq,
      jsIncludes, charListIncludes_iff, specMatches, specTextMatches,
      List.contains, List.elem_iff]
  · intro idea
    exact Or.inl ⟨[], jsToLower idea.title, by simp [jsToLower]⟩

/-- C5: for any state with a positive page number, the visible slice is
exactly `filtered[(currentPage-1)*6 : currentPage*6]` (drop-then-take), it
never exceeds the page size, and it is a sublist of the filtered list and
hence of the loaded collection in its original order. -/
theorem visible_slice (st : ViewState) (h : 1 ≤ st.currentPage) :
    currentPageIdeas st =
      ((filteredIdeas st).drop
        ((st.currentPage - 1).toNat * ITEMS_PER_PAGE)).take ITEMS_PER_PAGE ∧
    (currentPageIdeas st).length ≤ ITEMS_PER_PAGE ∧
    (currentPageIdeas st).Sublist (filteredIdeas st) ∧
    (currentPageIdeas st).Sublist st.ideas := by
  have hs : (0:ℤ) ≤ startIndex st := by
    simp only [startIndex, ITEMS_PER_PAGE]
    omega
  have htoNat : (startIndex st).toNat = (st.currentPage - 1).toNat * ITEMS_PER_PAGE := by
    simp only [startIndex, ITEMS_PER_PAGE]
    omega
  have heq : currentPageIdeas st =
      ((filteredIdeas st).drop
        ((st.currentPage - 1).toNat * ITEMS_PER_PAGE)).take ITEMS_PER_PAGE := by
    rw [currentPageIdeas, endIndex, jsSlice_nonneg _ _ _ hs, htoNat]
  refine ⟨heq, ?_, ?_, ?_⟩
  · rw [heq]
    exact List.length_take_le _ _
  · rw [heq]
    exact (List.take_sublist _ _).trans (List.drop_sublist _ _)
  · rw [heq]
    exact ((List.take_sublist _ _).trans (List.drop_sublist _ _)).trans
      (List.filter_sublist _)

/-- C5 witness: the seven-idea state has page 1 and its visible slice is a
sublist of the loaded collection. -/
theorem visible_slice_w :
    (1:ℤ) ≤ pagingState.currentPage ∧
    (currentPageIdeas pagingState).Sublist pagingState.ideas :=
  ⟨by decide, (visible_slice pagingState (by decide)).2.2.2⟩

/-- C6: the facet list starts with the `"All"` sentinel counting the whole
collection; the remaining facet names are exactly the distinct category
labels across all ideas (no duplicates, same membership as the flattened
label list, relative order equal to first-occurrence order), and each such
facet's count is the number of ideas whose category sequence contains its
label. -/
theorem categories_facets (ideas : List Idea) :
    (categories ideas).head? = some ⟨"all", "All", ideas.length⟩ ∧
    ((categories ideas).drop 1).map CategoryFacet.name =
      jsSetToArray (ideas.flatMap Idea.category) ∧
    (jsSetToArray (ideas.flatMap Idea.category)).Nodup ∧
    (∀ c, c ∈ jsSetToArray (ideas.flatMap Idea.category) ↔
      c ∈ ideas.flatMap Idea.category) ∧
    (∀ a b, a ∈ ideas.flatMap Idea.category → b ∈ ideas.flatMap Idea.category →
      (firstIdx a (jsSetToArray (ideas.flatMap Idea.category)) <
          firstIdx b (jsSetToArray (ideas.flatMap Idea.category)) ↔
        firstIdx a (ideas.flatMap Idea.category) <
          firstIdx b (ideas.flatMap Idea.category))) ∧
    (∀ f, f ∈ (categories ideas).drop 1 →
      f.count = (ideas.filter (fun i => decide (f.name ∈ i.category))).length) := by
  refine ⟨rfl, ?_, ?_, ?_, ?_, ?_⟩
  · simp only [categories, List.drop_succ_cons, List.drop_zero, List.map_map]
    exact List.map_id'' (fun x => rfl) _
  · rw [jsSetToArray_eq]
    exact nodup_firstSeenDedup _
  · intro c
    rw [jsSetToArray_eq]
    exact mem_firstSeenDedup c _
  · intro a b ha hb
    rw [jsSetToArray_eq]
    exact firstSeenDedup_order a b _ ha hb
  · intro f hf
    simp only [categories, List.drop_succ_cons, List.drop_zero, List.mem_map] at hf
    obtain ⟨c, _, rfl⟩ := hf
    simp only [categoryCount]
    congr 1
    apply List.filter_congr
    intro i _
    simp [List.contains, List.elem_eq_mem]

/-- C6 witness: over two concrete ideas (categories `["B","A"]` and
`["A"]`) the facet `⟨"A","A",2⟩` appears after the sentinel and counts
exactly the ideas containing `"A"`, and the facet order `B` before `A`
matches the first-seen order of the labels. -/
theorem categories_facets_w :
    ((⟨"A", "A", 2⟩ : CategoryFacet).count =
      (([⟨"i1", "T1", "D1", ["B", "A"], 0, "e"⟩,
         ⟨"i2", "T2", "D2", ["A"], 0, "e"⟩] : List Idea).filter
        (fun i => decide ((⟨"A", "A", 2⟩ : CategoryFacet).name ∈ i.category))).length) ∧
    (firstIdx "B" (jsSetToArray (([⟨"i1", "T1", "D1", ["B", "A"], 0, "e"⟩,
         ⟨"i2", "T2", "D2", ["A"], 0, "e"⟩] : List Idea).flatMap Idea.category)) <
        firstIdx "A" (jsSetToArray (([⟨"i1", "T1", "D1", ["B", "A"], 0, "e"⟩,
         ⟨"i2", "T2", "D2", ["A"], 0, "e"⟩] : List Idea).flatMap Idea.category)) ↔
      firstIdx "B" (([⟨"i1", "T1", "D1", ["B", "A"], 0, "e"⟩,
         ⟨"i2", "T2", "D2", ["A"], 0, "e"⟩] : List Idea).flatMap Idea.category) <
        firstIdx "A" (([⟨"i1", "T1", "D1", ["B", "A"], 0, "e"⟩,
         ⟨"i2", "T2", "D2", ["A"], 0, "e"⟩] : List Idea).flatMap Idea.category)) :=
  ⟨(categories_facets _).2.2.2.2.2 ⟨"A", "A", 2⟩ (by decide),
   (categories_facets _).2.2.2.2.1 "B" "A" (by decide) (by decide)⟩

/-- C10: over the empty collection (the initial state, kept by every
failed load) the facet list is exactly the `"All"` sentinel with count 0,
and the visible slice is empty for every category, query and page. -/
theorem empty_collection_queries :
    categories [] = [⟨"all", "All", 0⟩] ∧
    (∀ cat q searching p,
      currentPageIdeas ⟨[], cat, q, searching, p⟩ = []) := by
  refine ⟨rfl, ?_⟩
  intro cat q searching p
  simp [currentPageIdeas, jsSlice, filteredIdeas]

end IdeasTable
